import Mathlib

/-!
Verification of the exiledb repository's bundle/index reader and DAT decoder
against their natural-language specification.

Conventions of the shallow embedding:
* Go byte slices are `List Nat` (each entry a byte value 0..255).
* Go strings are `List Nat` of their UTF-8 bytes wherever the code compares or
  sorts them byte-wise (index paths, resolver paths); field/schema names that
  are only used as map keys keep the same representation.
* Machine integers are `Nat`/`Int`; Go's truncating `/` and `%` on `int` are
  `Int.tdiv`/`Int.tmod`; unsigned reads are little-endian sums of bytes.
* Fallible Go functions (returning `(T, error)`) become `Except DatErr T` or
  `Option`; Go runtime panics (out-of-range slice index, division by zero)
  are a distinguished `.panic` outcome where a claim is about them.
* Go floats are carried as their raw little-endian bit patterns (`Nat`);
  no claim depends on floating-point arithmetic.
-/

namespace ExileDB

/-- Parser width: 32-bit (`.dat`, `.datl`) or 64-bit (`.dat64`, `.datc64`, ...)
(`ParserWidth` in `internal/dat/types.go`). -/
inductive ParserWidth where
  | w32
  | w64
deriving DecidableEq, Repr

/-- Field type tags of the community schema (`FieldType` in
`internal/dat/types.go`). The Go type is a string; only the fifteen valid tags
are representable here, matching `FieldType.Valid`. -/
inductive FieldType where
  | bool
  | string
  | i16
  | u16
  | i32
  | u32
  | i64
  | u64
  | f32
  | f64
  | row
  | foreignrow
  | enumrow
  | longid
  | array
deriving DecidableEq, Repr

/-- Model of `FieldType.Size(width ...ParserWidth)` from `internal/dat/types.go`
(the variadic variant; every call site in the parser passes the width
explicitly). Note that `foreignrow` and `array` return 16 for BOTH widths
("always 16 bytes like poe-dat-viewer"). -/
def FieldType.Size (ft : FieldType) (width : ParserWidth) : Nat :=
  match ft with
  | .bool => 1
  | .i16 | .u16 => 2
  | .i32 | .u32 | .f32 => 4
  | .i64 | .u64 | .f64 => 8
  | .row => 8
  | .foreignrow => 16
  | .enumrow => 4
  | .string => 8
  | .longid => if width = .w32 then 8 else 16
  | .array => 16

/-- A schema column (`TableColumn`): only the fields the parser consults.
The name is an optional byte string. -/
structure TableColumn where
  name : Option (List Nat)
  type : FieldType
  array : Bool
  interval : Bool
deriving DecidableEq, Repr

/-- A table schema (`TableSchema`): name and ordered column list. -/
structure TableSchema where
  name : List Nat
  columns : List TableColumn
deriving DecidableEq, Repr

/-- Loop body of `DATParser.CalculateRowSize` (`internal/dat/parser.go`):
walks the columns with a `fieldsProcessed` counter guarded by `maxFields`,
adding `TypeArray.Size(width)` for array columns and `column.Type.Size(width)`
otherwise. The interval flag is not consulted. -/
def calcRowSizeLoop : List TableColumn → Nat → Nat → ParserWidth → Nat
  | [], _, _, _ => 0
  | column :: rest, fieldsProcessed, maxFields, width =>
    if fieldsProcessed ≥ maxFields then 0
    else
      (if column.array then FieldType.array.Size width else column.type.Size width) +
        calcRowSizeLoop rest (fieldsProcessed + 1) maxFields width

/-- Model of `DATParser.CalculateRowSize(schema, width)`. -/
def CalculateRowSize (schema : TableSchema) (width : ParserWidth) : Nat :=
  calcRowSizeLoop schema.columns 0 schema.columns.length width

/-- Model of `DATParser.calculateFieldSize(column)` (`internal/dat/parser.go`): the
per-column slot size used by the row walker; doubles the scalar size when
`interval` is set, and uses the array slot size for array columns. -/
def calculateFieldSize (width : ParserWidth) (column : TableColumn) : Nat :=
  if column.array then FieldType.array.Size width
  else (column.type.Size width) * (if column.interval then 2 else 1)

/-- Modelled from the spec: row size as §4.7.3 words it — "the sum over schema
columns of the column's slot size under the active width, respecting
`interval` doubling and the array-slot override". Uses the code's own slot
sizes so that only the interval treatment is under test. -/
def rowSizeSpecDerivation (schema : TableSchema) (width : ParserWidth) : Nat :=
  (schema.columns.map (fun c =>
    if c.array then FieldType.array.Size width
    else (c.type.Size width) * (if c.interval then 2 else 1))).sum

/-- A schema whose single column is an `i32` with `interval: true`. -/
def intervalColumn : TableColumn :=
  { name := some [88], type := .i32, array := false, interval := true }

/-- Single-column interval schema used as the failing input for C1. -/
def intervalSchema : TableSchema :=
  { name := [84], columns := [intervalColumn] }

/-- Modelled from the spec: the §4.7.2 slot-size table as the claim states it
(`foreignrow` 8/16, `array` 8/16, `longid` 8/16 by width; all other types
width-independent). -/
def sizeTableSpec (ft : FieldType) (width : ParserWidth) : Nat :=
  match ft with
  | .bool => 1
  | .i16 | .u16 => 2
  | .i32 | .u32 | .f32 => 4
  | .i64 | .u64 | .f64 => 8
  | .string => 8
  | .row => 8
  | .enumrow => 4
  | .foreignrow => if width = .w32 then 8 else 16
  | .longid => if width = .w32 then 8 else 16
  | .array => if width = .w32 then 8 else 16

/-- The §4.7.2 table amended to what the code implements: `foreignrow` and
`array` slots are 16 bytes under BOTH widths; only `longid` is
width-dependent (8 under 32-bit, 16 under 64-bit); all other rows of the
table are unchanged. -/
def sizeTableAmended (ft : FieldType) (width : ParserWidth) : Nat :=
  match ft with
  | .bool => 1
  | .i16 | .u16 => 2
  | .i32 | .u32 | .f32 => 4
  | .i64 | .u64 | .f64 => 8
  | .string => 8
  | .row => 8
  | .enumrow => 4
  | .foreignrow => 16
  | .longid => if width = .w32 then 8 else 16
  | .array => 16

/-! ## Boundary marker finder (`findAlignedBoundaryMarker`, parser.go) -/

/-- The 8-byte boundary marker `0xBB × 8` (`BoundaryMarker` in parser.go). -/
def boundaryMarker : List Nat := List.replicate 8 187

/-- The marker occurs in `data` at position `i`. -/
abbrev isMarkerAt (data : List Nat) (i : Nat) : Prop :=
  (data.drop i).take 8 = boundaryMarker

/-- Model of `bytes.Index(data, BoundaryMarker)`: index of the first occurrence of the
marker, `none` when absent. -/
def bytesIndex : List Nat → Option Nat
  | [] => none
  | b :: rest =>
    if (b :: rest).take 8 = boundaryMarker then some 0
    else (bytesIndex rest).map (· + 1)

/-- Retry loop of `findAlignedBoundaryMarker`: find the next marker occurrence
at or after `fromIndex`; accept it when its index is a multiple of the row
count (Go's `%` is `Int.tmod`), otherwise resume just past it. -/
def findFrom (data : List Nat) (rowCount : Int) (fromIndex : Nat) : Option Nat :=
  match h : bytesIndex (data.drop fromIndex) with
  | none => none
  | some d =>
    if ((d + fromIndex : Nat) : Int).tmod rowCount = 0 then some (d + fromIndex)
    else findFrom data rowCount (d + fromIndex + 1)
termination_by data.length - fromIndex
decreasing_by
  have hlen : ∀ (l : List Nat) (e : Nat), bytesIndex l = some e → e + 8 ≤ l.length := by
    intro l
    induction l with
    | nil => intro e he; cases he
    | cons b rest ihl =>
      intro e he
      by_cases hm : (b :: rest).take 8 = boundaryMarker
      · rw [bytesIndex, if_pos hm] at he
        cases he
        have hlt := congrArg List.length hm
        simp [boundaryMarker] at hlt
        simp only [List.length_cons]
        omega
      · rw [bytesIndex, if_neg hm, Option.map_eq_some'] at he
        obtain ⟨e2, he2, rfl⟩ := he
        have := ihl e2 he2
        simp only [List.length_cons]
        omega
  have hb := hlen _ _ h
  simp only [List.length_drop] at hb
  omega

/-- Model of `DATParser.findAlignedBoundaryMarker(data, rowCount)` (parser.go): with a
zero row count return the first marker occurrence; otherwise run the aligned
retry loop from index 0. -/
def findAlignedBoundaryMarker (data : List Nat) (rowCount : Int) : Option Nat :=
  if rowCount = 0 then bytesIndex data else findFrom data rowCount 0

/-- A marker occurrence that the aligned-boundary rule accepts: row count zero
accepts any occurrence, otherwise the index must be a multiple of the row
count. -/
abbrev alignedMarkerAt (data : List Nat) (rowCount : Int) (i : Nat) : Prop :=
  isMarkerAt data i ∧ (rowCount = 0 ∨ ((i : Nat) : Int).tmod rowCount = 0)

/-! ## DAT container structure (`parseDATStructure`, parser.go) -/

/-- Error tags of the DAT decoder; each stands for one distinct
`fmt.Errorf` site of parser.go. -/
inductive DatErr where
  | tooSmall
  | rowCountTooLarge
  | boundaryNotFound
  | dynamicBeyondFile
  | rowSizeZero
  | boundaryMisaligned
  | fixedSizeMismatch
  | insufficientData
  | unsupportedType
  | offsetOutOfRange
  | offsetTooSmall
  | stringTooLong
  | longIdCorrupt
  | arrayCountExceedsLimit
  | arrayExceedsData
  | elementExceedsBounds
deriving DecidableEq, Repr

/-- Model of `DatFile` (types.go): row count (Go `int`, from a signed 32-bit read),
unused row length, and the two data sections. -/
structure DatFile where
  rowCount : Int
  rowLength : Nat
  fixedData : List Nat
  dynamicData : List Nat
deriving DecidableEq, Repr

/-- Model of `binary.LittleEndian.Uint32(data[p:])`. -/
def leU32 (data : List Nat) (p : Nat) : Nat :=
  data.getD p 0 + 256 * data.getD (p + 1) 0 + 65536 * data.getD (p + 2) 0 +
    16777216 * data.getD (p + 3) 0

/-- Model of `binary.LittleEndian.Uint64(data[p:])`. -/
def leU64 (data : List Nat) (p : Nat) : Nat :=
  leU32 data p + 4294967296 * leU32 data (p + 4)

/-- Go's `int32(u)` re-interpretation of an unsigned 32-bit value. -/
def int32OfU32 (r : Nat) : Int :=
  if r < 2147483648 then (r : Int) else (r : Int) - 4294967296

/-- Model of `MaxRowCount` (parser.go). -/
def MaxRowCount : Int := 10000000

/-- Model of `DATParser.parseDATStructure(data)` (parser.go): read the signed row
count, bound it, locate the aligned boundary in `data[4:]`, and split the
file into fixed and dynamic sections. -/
def parseDATStructure (data : List Nat) : Except DatErr DatFile :=
  if data.length < 4 then .error .tooSmall
  else
    let rowCount : Int := int32OfU32 (leU32 data 0)
    if rowCount > MaxRowCount then .error .rowCountTooLarge
    else
      match findAlignedBoundaryMarker (data.drop 4) rowCount with
      | none => .error .boundaryNotFound
      | some idx =>
        if idx + 4 > data.length then .error .dynamicBeyondFile
        else .ok { rowCount := rowCount, rowLength := 0,
                   fixedData := (data.drop 4).take idx,
                   dynamicData := data.drop (idx + 4) }

/-! ## DAT field readers and row walker (parser.go) -/

/-- Model of `ParserOptions` (parser.go). -/
structure ParserOptions where
  strictMode : Bool
  validateReferences : Bool
  maxStringLength : Nat
  maxArrayCount : Nat
  arraySizeWarningThreshold : Nat
deriving DecidableEq, Repr

/-- The options installed by `NewDATParser`. -/
def defaultParserOptions : ParserOptions :=
  { strictMode := false, validateReferences := false,
    maxStringLength := 65536, maxArrayCount := 65536,
    arraySizeWarningThreshold := 1000 }

/-- Model of `DATParser`: parser width plus options. -/
structure DATParser where
  width : ParserWidth
  options : ParserOptions
deriving DecidableEq, Repr

/-- Model of `NullRowSentinel` (= `SentinelValue32`), `0xFEFEFEFE`. -/
def NullRowSentinel : Nat := 4278124286

/-- Model of `LongIDNullSentinel` (= `SentinelValue64`), `0xFEFEFEFEFEFEFEFE`. -/
def LongIDNullSentinel : Nat := 18374403900871474942

/-- Model of `MaxReasonableForeignKeyIndex` (parser.go). -/
def MaxReasonableForeignKeyIndex : Nat := 100000000

/-- Model of `MinOffsetForArraysAndStrings` (parser.go). -/
def MinOffsetForArraysAndStrings : Nat := 8

/-- Model of `MinDATFileSize` (parser.go). -/
def MinDATFileSize : Nat := 12

/-- A parsed field value (`interface{}` in Go). Floats are carried as raw bit
patterns; strings as lists of decoded code points; a Go `nil` (null
row/longid reference) is `vNullRef`; typed slices are the `a...` variants,
`aAny` standing for Go's `[]interface{}{}` fallback of `createEmptyArray`. -/
inductive Value where
  | vBool (b : Bool)
  | vI16 (v : Int)
  | vU16 (v : Nat)
  | vI32 (v : Int)
  | vU32 (v : Nat)
  | vI64 (v : Int)
  | vU64 (v : Nat)
  | vF32 (bits : Nat)
  | vF64 (bits : Nat)
  | vStr (cps : List Nat)
  | vNullRef
  | vRef (v : Nat)
  | vLong (v : Nat)
  | aBool (l : List Bool)
  | aI16 (l : List Int)
  | aU16 (l : List Nat)
  | aI32 (l : List Int)
  | aU32 (l : List Nat)
  | aI64 (l : List Int)
  | aU64 (l : List Nat)
  | aF32 (l : List Nat)
  | aF64 (l : List Nat)
  | aStr (l : List (List Nat))
  | aRef (l : List (Option Nat))
  | aAny
deriving DecidableEq, Repr

deriving instance DecidableEq for Except

/-- Model of `createEmptyArray` via `emptyArrayMap` (parser.go); the map has no entry
for `longid`/`array`, whose lookup falls back to `[]interface{}{}`. -/
def createEmptyArray : FieldType → Value
  | .bool => .aBool []
  | .string => .aStr []
  | .i16 => .aI16 []
  | .u16 => .aU16 []
  | .i32 => .aI32 []
  | .u32 => .aU32 []
  | .i64 => .aI64 []
  | .u64 => .aU64 []
  | .f32 => .aF32 []
  | .f64 => .aF64 []
  | .row | .foreignrow | .enumrow => .aRef []
  | .longid | .array => .aAny

/-- Model of `binary.LittleEndian.Uint16(data[p:])`. -/
def leU16 (data : List Nat) (p : Nat) : Nat :=
  data.getD p 0 + 256 * data.getD (p + 1) 0

/-- Go's `int16(u)` re-interpretation. -/
def int16OfU16 (r : Nat) : Int :=
  if r < 32768 then (r : Int) else (r : Int) - 65536

/-- Go's `int64(u)` re-interpretation. -/
def int64OfU64 (r : Nat) : Int :=
  if r < 9223372036854775808 then (r : Int) else (r : Int) - 18446744073709551616

/-- The UTF-16 code-unit collection loop of `ReadString`: read little-endian
u16s until a NUL or until fewer than two bytes remain; after appending a
unit, error out when the accumulated byte length exceeds `MaxStringLength`
(`count` is the number of units already accumulated). -/
def collectUTF16 (maxStringLength : Nat) : List Nat → Nat → Except DatErr (List Nat)
  | b0 :: b1 :: rest, count =>
    let ch := b0 + 256 * b1
    if ch = 0 then .ok []
    else if (count + 1) * 2 > maxStringLength then .error .stringTooLong
    else (collectUTF16 maxStringLength rest (count + 1)).map (ch :: ·)
  | _, _ => .ok []

/-- The surrogate-recombination loop of `ReadString`: a high surrogate
followed by another unit combines into a supplementary code point (the low
unit's subtraction wraps like Go's `uint16` arithmetic); anything else is
passed through. The final Go `string(runes)` conversion is not modelled —
values stay lists of code points. -/
def recombineUTF16 : List Nat → List Nat
  | [] => []
  | [c] => [c]
  | c :: low :: rest =>
    if 55296 ≤ c ∧ c ≤ 56319 then
      (65536 + (c - 55296) * 1024 + (low + 65536 - 56320) % 65536) :: recombineUTF16 rest
    else c :: recombineUTF16 (low :: rest)

/-- Model of `DATParser.ReadString(dynamicData, offset, state)` (parser.go); `state`
is never consulted. -/
def ReadString (p : DATParser) (dynamicData : List Nat) (offset : Nat) :
    Except DatErr (List Nat) :=
  if offset = 0 then .ok []
  else if offset = NullRowSentinel ∨ (p.width = .w64 ∧ offset = LongIDNullSentinel) then .ok []
  else if offset < MinOffsetForArraysAndStrings then .ok []
  else if offset ≥ dynamicData.length then .error .offsetOutOfRange
  else (collectUTF16 p.options.maxStringLength (dynamicData.drop offset) 0).map recombineUTF16

/-- Model of `DATParser.isValidForeignKeyValue(value)` (parser.go). -/
def isValidForeignKeyValue (value : Nat) : Bool :=
  if value = NullRowSentinel ∨ value = 0 then false
  else value ≤ MaxReasonableForeignKeyIndex

/-- The row/foreignrow/enumrow branch of `readTypedArray`: read `count`
elements at the given stride, bounds-checking each 4-byte read, filtering
invalid values to null. `i` is the element index. -/
def readRefArrayLoop (data : List Nat) (stride : Nat) :
    Nat → Nat → Except DatErr (List (Option Nat))
  | _, 0 => .ok []
  | i, k + 1 =>
    if i * stride + 4 > data.length then .error .elementExceedsBounds
    else
      let value := leU32 data (i * stride)
      (readRefArrayLoop data stride (i + 1) k).map
        (fun rest => (if isValidForeignKeyValue value then some value else none) :: rest)

/-- Model of `DATParser.readTypedArray(data, count, elementType)` (parser.go). The
scalar branches read `count` elements of the element's own size; the
reference branch strides by `elementType.Size(width)` with per-element
bounds checks. `string` (and `longid`/`array`) hit the default error. -/
def readTypedArray (p : DATParser) (data : List Nat) (count : Nat)
    (elementType : FieldType) : Except DatErr Value :=
  match elementType with
  | .bool => .ok (.aBool ((List.range count).map (fun i => data.getD i 0 != 0)))
  | .i16 => .ok (.aI16 ((List.range count).map (fun i => int16OfU16 (leU16 data (i * 2)))))
  | .u16 => .ok (.aU16 ((List.range count).map (fun i => leU16 data (i * 2))))
  | .i32 => .ok (.aI32 ((List.range count).map (fun i => int32OfU32 (leU32 data (i * 4)))))
  | .u32 => .ok (.aU32 ((List.range count).map (fun i => leU32 data (i * 4))))
  | .i64 => .ok (.aI64 ((List.range count).map (fun i => int64OfU64 (leU64 data (i * 8)))))
  | .u64 => .ok (.aU64 ((List.range count).map (fun i => leU64 data (i * 8))))
  | .f32 => .ok (.aF32 ((List.range count).map (fun i => leU32 data (i * 4))))
  | .f64 => .ok (.aF64 ((List.range count).map (fun i => leU64 data (i * 8))))
  | .row | .foreignrow | .enumrow =>
    (readRefArrayLoop data (elementType.Size p.width) 0 count).map (fun l => .aRef l)
  | _ => .error .unsupportedType

/-- The per-string loop of `readStringArray`: read `count` little-endian u32
offsets and resolve each through `ReadString`. -/
def readStringArrayLoop (p : DATParser) (data dynamicData : List Nat) (u32sz : Nat) :
    Nat → Nat → Except DatErr (List (List Nat))
  | _, 0 => .ok []
  | i, k + 1 =>
    match ReadString p dynamicData (leU32 data (i * u32sz)) with
    | .error e => .error e
    | .ok s => (readStringArrayLoop p data dynamicData u32sz (i + 1) k).map (s :: ·)

/-- Model of `DATParser.readStringArray(data, dynamicData, count, state)` (parser.go). -/
def readStringArray (p : DATParser) (data dynamicData : List Nat) (count : Nat) :
    Except DatErr (List (List Nat)) :=
  let u32sz := FieldType.u32.Size p.width
  if count * u32sz > data.length then .error .arrayExceedsData
  else readStringArrayLoop p data dynamicData u32sz 0 count

/-- Model of `DATParser.ReadArray(dynamicData, offset, count, elementType, state)`
(parser.go). `statePresent` models `state != nil`. -/
def ReadArray (p : DATParser) (dynamicData : List Nat) (offset count : Nat)
    (elementType : FieldType) (statePresent : Bool) : Except DatErr Value :=
  if offset = 0 ∨ count = 0 then .ok (createEmptyArray elementType)
  else if offset = NullRowSentinel ∨ (p.width = .w64 ∧ offset = LongIDNullSentinel) then
    .ok (createEmptyArray elementType)
  else if offset < MinOffsetForArraysAndStrings then .error .offsetTooSmall
  else if offset ≥ dynamicData.length then .error .offsetOutOfRange
  else if count = 0 then .ok (createEmptyArray elementType)
  else
    let data := dynamicData.drop offset
    let elementSize0 := elementType.Size p.width
    let elementSize :=
      if statePresent ∧ p.width = .w64 ∧ (elementType = .foreignrow ∨ elementType = .enumrow)
      then 16 else elementSize0
    if elementType = .string then
      (readStringArray p data dynamicData count).map (fun l => .aStr l)
    else
      let totalSize := count * elementSize
      if totalSize > data.length then .error .arrayExceedsData
      else readTypedArray p (data.take totalSize) count elementType

/-- Model of `DATParser.readScalarField(data, column, dynamicData, state...)`
(parser.go); the optional state is only forwarded to `ReadString`, which
ignores it. -/
def readScalarField (p : DATParser) (data : List Nat) (column : TableColumn)
    (dynamicData : List Nat) : Except DatErr Value :=
  if data.length < column.type.Size p.width then .error .insufficientData
  else
    match column.type with
    | .bool => .ok (.vBool (data.getD 0 0 != 0))
    | .i16 => .ok (.vI16 (int16OfU16 (leU16 data 0)))
    | .u16 => .ok (.vU16 (leU16 data 0))
    | .i32 => .ok (.vI32 (int32OfU32 (leU32 data 0)))
    | .u32 => .ok (.vU32 (leU32 data 0))
    | .i64 => .ok (.vI64 (int64OfU64 (leU64 data 0)))
    | .u64 => .ok (.vU64 (leU64 data 0))
    | .f32 => .ok (.vF32 (leU32 data 0))
    | .f64 => .ok (.vF64 (leU64 data 0))
    | .string => (ReadString p dynamicData (leU32 data 0)).map (fun s => .vStr s)
    | .row | .foreignrow | .enumrow =>
      let value := leU32 data 0
      if value = NullRowSentinel then .ok .vNullRef else .ok (.vRef value)
    | .longid =>
      if p.width = .w32 then
        let value := leU64 data 0
        if value = LongIDNullSentinel then .ok .vNullRef else .ok (.vLong value)
      else
        let value := leU64 data 0
        let high := leU64 data 8
        if value = LongIDNullSentinel ∧ high = LongIDNullSentinel then .ok .vNullRef
        else if high ≠ 0 then .error .longIdCorrupt
        else .ok (.vLong value)
    | .array => .error .unsupportedType

/-- Model of `DATParser.validateArrayFieldInput(data, dynamicData)` (parser.go):
check the slot holds an array slot's worth of bytes, then read the u32
count at +0 and the u32 offset at +8 (64-bit) or +4 (32-bit). -/
def validateArrayFieldInput (p : DATParser) (data : List Nat) :
    Except DatErr (Nat × Nat) :=
  if data.length < FieldType.array.Size p.width then .error .insufficientData
  else
    .ok (leU32 data 0, if p.width = .w64 then leU32 data 8 else leU32 data 4)

/-- Model of `DATParser.validateArraySize(count, column, state)` (parser.go): error
when the count exceeds `MaxArrayCount` (the warning threshold only logs). -/
def validateArraySize (p : DATParser) (count : Nat) : Except DatErr Unit :=
  if count > p.options.maxArrayCount then .error .arrayCountExceedsLimit
  else .ok ()

/-- Model of `DATParser.readArrayField(data, column, dynamicData, state...)`
(parser.go). -/
def readArrayField (p : DATParser) (data : List Nat) (column : TableColumn)
    (dynamicData : List Nat) (statePresent : Bool) : Except DatErr Value :=
  match validateArrayFieldInput p data with
  | .error e => .error e
  | .ok (count, offset) =>
    match validateArraySize p count with
    | .error e => .error e
    | .ok _ => ReadArray p dynamicData offset count column.type statePresent

/-- Model of `DATParser.parseFieldValue(fieldData, column, dynamicData, state)`
(parser.go); the row walker always passes a non-nil state. -/
def parseFieldValue (p : DATParser) (fieldData : List Nat) (column : TableColumn)
    (dynamicData : List Nat) : Except DatErr Value :=
  if column.array then readArrayField p fieldData column dynamicData true
  else readScalarField p fieldData column dynamicData

/-- UTF-8 bytes of a Lean string literal (all literals used are ASCII). -/
def strBytes (s : String) : List Nat := s.data.map Char.toNat

/-- Decimal ASCII digits of `n` (`strconv.Itoa` for naturals). -/
def natDecimalBytes (n : Nat) : List Nat :=
  if h : n < 10 then [48 + n]
  else natDecimalBytes (n / 10) ++ [48 + n % 10]
termination_by n
decreasing_by
  exact Nat.div_lt_self (by omega) (by omega)

/-- Model of `DATParser.resolveFieldName(column, index)` (parser.go). -/
def resolveFieldName (column : TableColumn) (index : Nat) : List Nat :=
  column.name.getD (strBytes "Unknown" ++ natDecimalBytes index)

/-- Model of `DATParser.extractFieldData(rowData, currentOffset, fieldSize, name)`
(parser.go): returns the clipped slot bytes, the advanced offset, and the
fail-soft break flag. -/
def extractFieldData (rowData : List Nat) (currentOffset fieldSize : Nat) :
    List Nat × Nat × Bool :=
  if currentOffset ≥ rowData.length then ([], currentOffset, true)
  else
    let fieldEnd := min (currentOffset + fieldSize) rowData.length
    let fieldData := (rowData.take fieldEnd).drop currentOffset
    (fieldData, currentOffset + fieldSize, currentOffset + fieldSize > rowData.length)

/-- Go map insertion (`fields[name] = value`) on an association list. -/
def fieldsInsert (fields : List (List Nat × Value)) (key : List Nat) (v : Value) :
    List (List Nat × Value) :=
  match fields with
  | [] => [(key, v)]
  | (k, w) :: rest => if k = key then (k, v) :: rest else (k, w) :: fieldsInsert rest key v

/-- Model of `ParsedRow` (parser.go); the Go field map is an association list in
insertion order. -/
structure ParsedRow where
  index : Nat
  fields : List (List Nat × Value)
  fieldsParsed : Nat
deriving DecidableEq, Repr

/-- The column walk of `DATParser.parseRow` (parser.go): resolve the name,
compute the slot size, extract the slot (breaking fail-soft when it exceeds
the row), parse the value (breaking on any error), and accumulate. -/
def parseRowLoop (p : DATParser) (rowData dynamicData : List Nat) :
    List TableColumn → Nat → Nat → List (List Nat × Value) → Nat →
    List (List Nat × Value) × Nat
  | [], _, _, fields, fieldsParsed => (fields, fieldsParsed)
  | column :: rest, i, currentOffset, fields, fieldsParsed =>
    let name := resolveFieldName column i
    let fieldSize := calculateFieldSize p.width column
    let r := extractFieldData rowData currentOffset fieldSize
    if r.2.2 then (fields, fieldsParsed)
    else
      match parseFieldValue p r.1 column dynamicData with
      | .error _ => (fields, fieldsParsed)
      | .ok value =>
        parseRowLoop p rowData dynamicData rest (i + 1) r.2.1
          (fieldsInsert fields name value) (fieldsParsed + 1)

/-- Model of `DATParser.parseRow(index, rowData, dynamicData, schema, state)`
(parser.go). The Go signature returns `(*ParsedRow, error)` but the body has
no error return: every field failure just breaks out of the walk. -/
def parseRow (p : DATParser) (index : Nat) (rowData dynamicData : List Nat)
    (schema : TableSchema) : Except DatErr ParsedRow :=
  let r := parseRowLoop p rowData dynamicData schema.columns 0 0 [] 0
  .ok { index := index, fields := r.1, fieldsParsed := r.2 }

/-- Model of `ParseMetadata` (parser.go). -/
structure ParseMetadata where
  fixedDataSize : Nat
  dynamicDataSize : Nat
  totalFileSize : Nat
  maxFieldsParsed : Nat
deriving DecidableEq, Repr

/-- Model of `ParsedTable` (parser.go). -/
structure ParsedTable where
  schema : TableSchema
  rowCount : Int
  rows : List ParsedRow
  metadata : ParseMetadata
deriving DecidableEq, Repr

/-- ASCII lowercasing of a byte (`strings.ToLower`; inputs are ASCII). -/
def toLowerByte (b : Nat) : Nat := if 65 ≤ b ∧ b ≤ 90 then b + 32 else b

/-- Model of `path.Ext`: scan backwards to the last `.` of the final path element. -/
def pathExtRev : List Nat → List Nat → List Nat
  | [], _ => []
  | c :: rest, acc =>
    if c = 47 then []
    else if c = 46 then c :: acc
    else pathExtRev rest (c :: acc)

/-- Model of `path.Ext(filename)`. -/
def pathExt (filename : List Nat) : List Nat := pathExtRev filename.reverse []

/-- Model of `WidthForFilename` (types.go). -/
def WidthForFilename (filename : List Nat) : ParserWidth :=
  let ext := (pathExt filename).map toLowerByte
  if ext = strBytes ".dat" ∨ ext = strBytes ".datl" then .w32
  else if ext = strBytes ".dat64" ∨ ext = strBytes ".datl64" ∨
    ext = strBytes ".datc64" ∨ ext = strBytes ".datc" then .w64
  else .w32

/-- The row loop of `ParseDATFileWithFilename`: parse rows `i, i+1, ...`
(`k` rows remaining), aborting on a row error. -/
def parseRowsLoop (p : DATParser) (fixedData dynamicData : List Nat) (rowSize : Nat)
    (schema : TableSchema) : Nat → Nat → Except DatErr (List ParsedRow)
  | _, 0 => .ok []
  | i, k + 1 =>
    match parseRow p i ((fixedData.take ((i + 1) * rowSize)).drop (i * rowSize))
        dynamicData schema with
    | .error e => .error e
    | .ok row => (parseRowsLoop p fixedData dynamicData rowSize schema (i + 1) k).map (row :: ·)

/-- Model of `DATParser.ParseDATFileWithFilename(ctx, r, filename, schema)`
(parser.go): size gate, structural parse, width from the filename (64-bit
when empty), schema row size, boundary re-location, row-size adjustment from
the boundary, fixed-size consistency check, then the row loop. Context
cancellation and logging are not modelled. -/
def ParseDATFileWithFilename (options : ParserOptions) (data : List Nat)
    (filename : List Nat) (schema : TableSchema) : Except DatErr ParsedTable :=
  if data.length < MinDATFileSize then .error .tooSmall
  else
    match parseDATStructure data with
    | .error e => .error e
    | .ok datFile =>
      let width := if filename ≠ [] then WidthForFilename filename else .w64
      let p : DATParser := { width := width, options := options }
      let rowSize0 := CalculateRowSize schema width
      if rowSize0 = 0 then .error .rowSizeZero
      else
        match findAlignedBoundaryMarker (data.drop 4) datFile.rowCount with
        | none => .error .boundaryNotFound
        | some idx =>
          let rowSize1 :=
            if 0 < datFile.rowCount then
              if idx % datFile.rowCount.toNat ≠ 0 then none
              else some (idx / datFile.rowCount.toNat)
            else some rowSize0
          match rowSize1 with
          | none => .error .boundaryMisaligned
          | some rowSize =>
            if (datFile.fixedData.length : Int) ≠ datFile.rowCount * (rowSize : Int) then
              .error .fixedSizeMismatch
            else
              match parseRowsLoop p datFile.fixedData datFile.dynamicData rowSize
                  schema 0 datFile.rowCount.toNat with
              | .error e => .error e
              | .ok rows =>
                .ok { schema := schema, rowCount := datFile.rowCount, rows := rows,
                      metadata :=
                        { fixedDataSize := datFile.fixedData.length,
                          dynamicDataSize := datFile.dynamicData.length,
                          totalFileSize := data.length,
                          maxFieldsParsed := (rows.map (·.fieldsParsed)).foldl max 0 } }

/-! ## Bundle reader (`bundle.ReadAt`, internal/bundle/bundle.go) -/

/-- Outcome of a `bundle.ReadAt` call: the bytes read, a returned error, or a
Go runtime panic (out-of-range slice index or division by zero). -/
inductive BundleResult where
  | ok (bytes : List Nat)
  | err
  | panic
deriving DecidableEq, Repr

/-- A `bundle` value (bundle.go): header size and granularity plus the
decompressed content of each compressed block (the decompressor adapter is
opaque; `blocks` stands for what `gooz.Decompress` produces for each block). -/
structure BundleModel where
  size : Nat
  granularity : Nat
  blocks : List (List Nat)
deriving DecidableEq, Repr

/-- The copy loop of `bundle.ReadAt`: `remaining` bytes still wanted, `off`
the current logical offset (Go `int64`, so an `Int`). Each iteration computes
the block id and in-block offset with Go's truncating `/` and `%`
(`Int.tdiv`/`Int.tmod`), indexes `b.blocks[blkId]` (panicking outside the
slice), decompresses into the first `rawSize` bytes of a zeroed
granularity-sized buffer (a length mismatch is a codec error, mirroring
§4.1's contract for the opaque codec), slices `obuf[blkOff:]` (panicking on a
negative index), and copies `min(remaining, granularity − blkOff)` bytes. -/
def bundleReadLoop (b : BundleModel) (remaining : Nat) (off : Int) : BundleResult :=
  if h0 : remaining = 0 then .ok []
  else if hg : b.granularity = 0 then .panic
  else
    let blkId := off.tdiv (b.granularity : Int)
    if hid : blkId < 0 ∨ (b.blocks.length : Int) ≤ blkId then .panic
    else
      let blkOff := off.tmod (b.granularity : Int)
      let rawSize : Int :=
        if blkId = (b.blocks.length : Int) - 1 then
          (b.size : Int) - blkId * (b.granularity : Int)
        else (b.granularity : Int)
      if hraw : rawSize < 0 ∨ (b.granularity : Int) < rawSize then .panic
      else
        let bl := b.blocks.getD blkId.toNat []
        if hbl : bl.length ≠ rawSize.toNat then .err
        else if hneg : blkOff < 0 ∨ (b.granularity : Int) < blkOff then .panic
        else
          let obuf := bl ++ List.replicate (b.granularity - rawSize.toNat) 0
          let copied := min remaining (b.granularity - blkOff.toNat)
          let chunk := (obuf.drop blkOff.toNat).take copied
          match bundleReadLoop b (remaining - copied) (off + (copied : Int)) with
          | .ok rest => .ok (chunk ++ rest)
          | r => r
termination_by remaining
decreasing_by
  have hmod : blkOff < (b.granularity : Int) := by
    have := Int.tmod_lt_of_pos off
      (show (0 : Int) < (b.granularity : Int) by exact_mod_cast Nat.pos_of_ne_zero hg)
    exact this
  have hnonneg : 0 ≤ blkOff := by
    rcases not_or.mp hneg with ⟨h1, -⟩
    omega
  have htn : blkOff.toNat < b.granularity := by omega
  have hcop : 1 ≤ min remaining (b.granularity - blkOff.toNat) := by omega
  omega

/-- Model of `bundle.ReadAt(p, off)` (bundle.go): reject reads past `size`, then run
the block copy loop. `dstLen` is `len(p)`. -/
def bundleReadAt (b : BundleModel) (dstLen : Nat) (off : Int) : BundleResult :=
  if off + (dstLen : Int) > (b.size : Int) then .err
  else bundleReadLoop b dstLen off

/-- Well-formedness of a bundle, as `OpenBundle` checks it plus the spec's
block-decompression invariant: positive granularity, the header block count
matching `⌈size / granularity⌉` (written as Go computes it), and each block
decompressing to a full granule except the trailing remainder. -/
def bundleWF (b : BundleModel) : Prop :=
  0 < b.granularity ∧
  b.blocks.length = b.size / b.granularity + (if b.size % b.granularity > 0 then 1 else 0) ∧
  ∀ i, i < b.blocks.length →
    (b.blocks.getD i []).length = min b.granularity (b.size - i * b.granularity)

instance (b : BundleModel) : Decidable (bundleWF b) := by
  unfold bundleWF
  exact instDecidableAnd

/-- The logical uncompressed stream of a bundle. -/
def bundleStream (b : BundleModel) : List Nat := b.blocks.flatten

/-- The spec's scenario-3 DAT tail (`file[4:]`): 5 junk bytes, an early marker
run at (non-aligned) index 5, zeros, then the aligned marker at index 36. -/
def c2tail : List Nat :=
  [0, 0, 0, 0, 0] ++ List.replicate 8 187 ++ List.replicate 23 0 ++ List.replicate 8 187

/-- The spec's scenario-1 bundle: one block, granularity 64, three bytes
`"ABC"`. -/
def c6bundle : BundleModel := { size := 3, granularity := 64, blocks := [[65, 66, 67]] }

/-- Concrete bundle for the negative-offset panic: one block of three bytes. -/
def c10bundle : BundleModel := { size := 3, granularity := 64, blocks := [[65, 66, 67]] }

/-! ## Bundle index construction and file enumeration (src/unnamed/part_011) -/

/-- Model of `bundleFileInfo` (part_011): paths are byte strings. -/
structure BundleFileInfo where
  path : List Nat
  bundleId : Nat
  offset : Nat
  size : Nat
deriving DecidableEq, Repr

/-- Go's byte-wise string `<` on byte strings. -/
def bytesLt : List Nat → List Nat → Bool
  | [], [] => false
  | [], _ :: _ => true
  | _ :: _, [] => false
  | a :: as, c :: cs => if a < c then true else if c < a then false else bytesLt as cs

/-- Model of `sort.Slice(files, func(i, j) { return files[i].path < files[j].path })`
(part_011): sorting with the byte-wise less; `sort.Slice` guarantees exactly
that no later element is less than an earlier one. -/
def sortFilesByPath (files : List BundleFileInfo) : List BundleFileInfo :=
  files.mergeSort (fun x y => ! bytesLt y.path x.path)

/-- Model of `files[fe].path = path` (in-place update of one entry's path). -/
def setFilePath (files : List BundleFileInfo) (i : Nat) (p : List Nat) :
    List BundleFileInfo :=
  match files.get? i with
  | some f => files.set i { f with path := p }
  | none => files

/-- Lookup in the `hash → file index` map (`filemap`), as an association
list. -/
def filemapLookup (filemap : List (Nat × Nat)) (h : Nat) : Option Nat :=
  (filemap.find? (fun e => e.1 == h)).map (·.2)

/-- The path-resolution loop of `loadBundleIndexFromRawData` (part_011):
for every decoded pathspec path, try the modern hash, fall back to the
legacy hash, set the matching entry's path, silently skip misses. The two
hash functions are parameters (their values are irrelevant to the claims
about this loop). -/
def assignFilePaths (modern legacy : List Nat → Nat) (filemap : List (Nat × Nat)) :
    List BundleFileInfo → List (List Nat) → List BundleFileInfo
  | files, [] => files
  | files, path :: rest =>
    let files2 :=
      match filemapLookup filemap (modern path) with
      | some fe => setFilePath files fe path
      | none =>
        match filemapLookup filemap (legacy path) with
        | some fe => setFilePath files fe path
        | none => files
    assignFilePaths modern legacy filemap files2 rest

/-- Model of `bundleIndex` (part_011). -/
structure BundleIndex where
  bundles : List (List Nat)
  files : List BundleFileInfo
deriving DecidableEq, Repr

/-- The tail of `loadBundleIndexFromRawData` (part_011, lines 141–171):
resolve paths over all decoded pathspec paths (`paths` is their
concatenation; Go's map iteration order does not matter to the claims),
sort by path, and return the index. Entries whose hash never matched keep
their zero-value empty path. -/
def buildBundleIndex (modern legacy : List Nat → Nat) (filemap : List (Nat × Nat))
    (files0 : List BundleFileInfo) (paths : List (List Nat))
    (bundles : List (List Nat)) : BundleIndex :=
  { bundles := bundles,
    files := sortFilesByPath (assignFilePaths modern legacy filemap files0 paths) }

/-- Model of `indexImpl.ListFiles` (part_011): every entry's path, with no filtering. -/
def ListFiles (idx : BundleIndex) : List (List Nat) := idx.files.map (·.path)

/-! ## Path resolver (`BundleManager.resolvePaths`, src/unnamed/part_010) -/

/-- Model of `strings.HasPrefix(s, pre)` on byte strings. -/
def hasPrefixBytes : List Nat → List Nat → Bool
  | _, [] => true
  | [], _ :: _ => false
  | c :: cs, p :: ps => if c = p then hasPrefixBytes cs ps else false

/-- One candidate path per language (the loop body of `resolvePaths`,
part_010): English maps to `data/<filename>`, any other language to
`data/<lowercase-language>/<filename>`. -/
def langCandidate (filename : List Nat) (lang : List Nat) : List Nat :=
  if lang = strBytes "English" then strBytes "data/" ++ filename
  else strBytes "data/" ++ lang.map toLowerByte ++ strBytes "/" ++ filename

/-- The candidate-building loop of `resolvePaths` (append per language). -/
def resolvePathsLoop (languages : List (List Nat)) (filename : List Nat) :
    List (List Nat) :=
  languages.foldl (fun paths lang => paths ++ [langCandidate filename lang]) []

/-- Model of `BundleManager.resolvePaths(inputPath)` (part_010): strip exactly
`"Data/"` or `"data/"`, otherwise return the path unchanged as the sole
candidate; then emit one candidate per configured language. -/
def resolvePaths (languages : List (List Nat)) (inputPath : List Nat) :
    List (List Nat) :=
  if hasPrefixBytes inputPath (strBytes "Data/") then
    resolvePathsLoop languages (inputPath.drop 5)
  else if hasPrefixBytes inputPath (strBytes "data/") then
    resolvePathsLoop languages (inputPath.drop 5)
  else [inputPath]

/-- Modelled from the spec: the resolver as the claim words it — strip a
CASE-INSENSITIVE `data/` prefix (otherwise return the path unchanged), then
emit one candidate per language in order. -/
def resolvePathsSpecCI (languages : List (List Nat)) (inputPath : List Nat) :
    List (List Nat) :=
  if (inputPath.take 5).map toLowerByte = strBytes "data/" then
    languages.map (langCandidate (inputPath.drop 5))
  else [inputPath]

/-- Modelled from the amended claim: strip the prefix only when it is
exactly `"Data/"` or `"data/"`; the per-language emission is unchanged. -/
def resolvePathsAmendedSpec (languages : List (List Nat)) (inputPath : List Nat) :
    List (List Nat) :=
  if hasPrefixBytes inputPath (strBytes "Data/") = true ∨
      hasPrefixBytes inputPath (strBytes "data/") = true then
    languages.map (langCandidate (inputPath.drop 5))
  else [inputPath]

/-- The single string column of the C3 failing input. -/
def c3column : TableColumn :=
  { name := some (strBytes "X"), type := .string, array := false, interval := false }

/-- One-column schema for the C3 failing input. -/
def c3schema : TableSchema := { name := strBytes "T", columns := [c3column] }

/-- A one-row DAT whose single string slot holds offset 64, far beyond the
8-byte dynamic section — a hard decode error inside the field reader. -/
def c3data : List Nat := [1, 0, 0, 0, 64, 0, 0, 0, 0, 0, 0, 0] ++ List.replicate 8 187

/-- The table the parser actually produces for `c3data`: the row is kept with
zero parsed fields and the file-level parse reports success. -/
def c3table : ParsedTable :=
  { schema := c3schema, rowCount := 1,
    rows := [{ index := 0, fields := [], fieldsParsed := 0 }],
    metadata := { fixedDataSize := 8, dynamicDataSize := 8, totalFileSize := 20,
                  maxFieldsParsed := 0 } }

/-- The u32 array column of the C4 counterexample. -/
def c4column : TableColumn :=
  { name := some (strBytes "A"), type := .u32, array := true, interval := false }

/-- A 64-bit array slot whose u32 count field holds the sentinel
`0xFEFEFEFE` (offset field zero). -/
def c4slot : List Nat := [254, 254, 254, 254] ++ List.replicate 12 0

/-! ## Theorems -/

/-- C1: the code's `CalculateRowSize` does NOT implement the claimed
derivation: for a single `i32` column with `interval: true` it returns 4
(the undoubled scalar size) while the spec's sum — and the row walker's own
`calculateFieldSize` — give 8. -/
theorem c1_calculateRowSize_ignores_interval :
    CalculateRowSize intervalSchema .w64 = 4 ∧
    rowSizeSpecDerivation intervalSchema .w64 = 8 ∧
    calculateFieldSize .w64 intervalColumn = 8 := by
  decide

/-- C5 counterexample: under 32-bit width the code gives a `foreignrow` slot
16 bytes (and likewise an `array` slot), not the 8 bytes of the §4.7.2 table. -/
theorem c5_foreignrow_size_counterexample :
    FieldType.foreignrow.Size .w32 = 16 ∧ FieldType.array.Size .w32 = 16 ∧
    sizeTableSpec .foreignrow .w32 = 8 ∧ sizeTableSpec .array .w32 = 8 ∧
    FieldType.foreignrow.Size .w32 ≠ sizeTableSpec .foreignrow .w32 := by
  decide

/-- C5 (amended): for every field type and parser width the code's slot size
equals the amended table; in particular `foreignrow` and `array` slots are
16 bytes under both widths. -/
theorem c5_field_sizes_amended :
    ∀ (ft : FieldType) (width : ParserWidth), ft.Size width = sizeTableAmended ft width := by
  intro ft width
  cases ft <;> cases width <;> rfl

theorem isMarkerAt_cons (b : Nat) (rest : List Nat) (j : Nat) :
    isMarkerAt (b :: rest) (j + 1) ↔ isMarkerAt rest j := by
  simp [isMarkerAt]

theorem bytesIndex_eq_some_iff (l : List Nat) (i : Nat) :
    bytesIndex l = some i ↔ isMarkerAt l i ∧ ∀ j, j < i → ¬ isMarkerAt l j := by
  induction l generalizing i with
  | nil =>
    simp only [bytesIndex]
    constructor
    · intro h; cases h
    · rintro ⟨h, -⟩
      simp [isMarkerAt, boundaryMarker] at h
  | cons b rest ih =>
    by_cases hm : (b :: rest).take 8 = boundaryMarker
    · simp only [bytesIndex, if_pos hm]
      constructor
      · rintro ⟨rfl⟩
        exact ⟨hm, fun j hj => absurd hj (Nat.not_lt_zero j)⟩
      · rintro ⟨hi, hmin⟩
        rcases Nat.eq_zero_or_pos i with rfl | hpos
        · rfl
        · exact absurd hm (hmin 0 hpos)
    · simp only [bytesIndex, if_neg hm, Option.map_eq_some']
      constructor
      · rintro ⟨d, hd, rfl⟩
        rcases (ih d).mp hd with ⟨hdm, hdmin⟩
        refine ⟨(isMarkerAt_cons b rest d).mpr hdm, ?_⟩
        intro j hj
        cases j with
        | zero => exact hm
        | succ j' =>
          rw [isMarkerAt_cons]
          exact hdmin j' (by omega)
      · rintro ⟨hi, hmin⟩
        cases i with
        | zero => exact absurd hi hm
        | succ i' =>
          refine ⟨i', (ih i').mpr ⟨(isMarkerAt_cons b rest i').mp hi, ?_⟩, rfl⟩
          intro j hj
          have := hmin (j + 1) (by omega)
          rw [isMarkerAt_cons] at this
          exact this

theorem bytesIndex_eq_none_iff (l : List Nat) :
    bytesIndex l = none ↔ ∀ i, ¬ isMarkerAt l i := by
  induction l with
  | nil =>
    simp only [bytesIndex, true_iff]
    intro i h
    simp [isMarkerAt, boundaryMarker] at h
  | cons b rest ih =>
    by_cases hm : (b :: rest).take 8 = boundaryMarker
    · simp only [bytesIndex, if_pos hm]
      constructor
      · intro h; cases h
      · intro h; exact absurd hm (h 0)
    · simp only [bytesIndex, if_neg hm, Option.map_eq_none', ih]
      constructor
      · intro h i
        cases i with
        | zero => exact hm
        | succ i' => rw [isMarkerAt_cons]; exact h i'
      · intro h i
        have := h (i + 1)
        rw [isMarkerAt_cons] at this
        exact this

theorem bytesIndex_le_length (l : List Nat) (d : Nat) (h : bytesIndex l = some d) :
    d + 8 ≤ l.length := by
  have hm := ((bytesIndex_eq_some_iff l d).mp h).1
  have hlen := congrArg List.length hm
  simp [isMarkerAt, boundaryMarker] at hlen
  omega

theorem isMarkerAt_drop (data : List Nat) (start i : Nat) (h : start ≤ i) :
    isMarkerAt (data.drop start) (i - start) ↔ isMarkerAt data i := by
  unfold isMarkerAt
  rw [List.drop_drop]
  have heq : start + (i - start) = i := by omega
  rw [heq]

theorem findFrom_eq_some_aux (data : List Nat) (n : Int) (hn : n ≠ 0) :
    ∀ (fuel start : Nat), data.length - start < fuel →
      ∀ i, findFrom data n start = some i ↔
        start ≤ i ∧ alignedMarkerAt data n i ∧
          ∀ j, start ≤ j → j < i → ¬ alignedMarkerAt data n j := by
  intro fuel
  induction fuel with
  | zero => intro start h; omega
  | succ fuel ih =>
  intro start hfuel i
  rw [findFrom]
  cases hbi : bytesIndex (data.drop start) with
  | none =>
    rw [bytesIndex_eq_none_iff] at hbi
    refine iff_of_false (fun h => by cases h) ?_
    rintro ⟨hsi, ⟨him, -⟩, -⟩
    exact hbi (i - start) ((isMarkerAt_drop data start i hsi).mpr him)
  | some d =>
    rcases (bytesIndex_eq_some_iff _ d).mp hbi with ⟨hdm, hdmin⟩
    have hdm' : isMarkerAt data (d + start) := by
      have h0 := isMarkerAt_drop data start (d + start) (by omega)
      rw [Nat.add_sub_cancel] at h0
      exact h0.mp hdm
    have hnomark : ∀ j, start ≤ j → j < d + start → ¬ isMarkerAt data j := by
      intro j h1 h2 hj
      exact hdmin (j - start) (by omega) ((isMarkerAt_drop data start j h1).mpr hj)
    by_cases ht : ((d + start : Nat) : Int).tmod n = 0
    · simp only [if_pos ht]
      constructor
      · intro h
        obtain rfl : d + start = i := Option.some.inj h
        refine ⟨by omega, ⟨hdm', Or.inr ht⟩, ?_⟩
        rintro j h1 h2 ⟨hj, -⟩
        exact hnomark j h1 h2 hj
      · rintro ⟨hsi, ⟨him, hial⟩, hmin⟩
        by_contra hne
        have hne' : i ≠ d + start := fun he => hne (by rw [he])
        rcases Nat.lt_or_ge i (d + start) with hlt | hge
        · exact hnomark i hsi hlt him
        · have hgt : d + start < i := by omega
          exact hmin (d + start) (by omega) hgt ⟨hdm', Or.inr ht⟩
    · simp only [if_neg ht]
      have hstep : data.length - (d + start + 1) < fuel := by
        have hlen := bytesIndex_le_length _ _ hbi
        simp only [List.length_drop] at hlen
        omega
      rw [ih (d + start + 1) hstep i]
      constructor
      · rintro ⟨hsi, hal, hmin⟩
        refine ⟨by omega, hal, ?_⟩
        intro j h1 h2
        rcases Nat.lt_or_ge j (d + start) with hlt | hge
        · rintro ⟨hj, -⟩
          exact hnomark j h1 hlt hj
        · rcases Nat.eq_or_lt_of_le hge with rfl | hgt
          · rintro ⟨-, hj⟩
            exact ht (hj.resolve_left hn)
          · exact hmin j (by omega) h2
      · rintro ⟨hsi, hal, hmin⟩
        have hige : d + start + 1 ≤ i := by
          rcases Nat.lt_or_ge i (d + start) with hlt | hge
          · exact absurd hal.1 (hnomark i hsi hlt)
          · rcases Nat.eq_or_lt_of_le hge with rfl | hgt
            · exact absurd (hal.2.resolve_left hn) ht
            · omega
        exact ⟨hige, hal, fun j h1 h2 => hmin j (by omega) h2⟩

theorem findFrom_eq_some_iff (data : List Nat) (n : Int) (hn : n ≠ 0) :
    ∀ start i, findFrom data n start = some i ↔
      start ≤ i ∧ alignedMarkerAt data n i ∧
        ∀ j, start ≤ j → j < i → ¬ alignedMarkerAt data n j := by
  intro start
  exact findFrom_eq_some_aux data n hn (data.length - start + 1) start (by omega)

theorem findFrom_eq_none_aux (data : List Nat) (n : Int) (hn : n ≠ 0) :
    ∀ (fuel start : Nat), data.length - start < fuel →
      (findFrom data n start = none ↔
        ∀ i, start ≤ i → ¬ alignedMarkerAt data n i) := by
  intro fuel
  induction fuel with
  | zero => intro start h; omega
  | succ fuel ih =>
  intro start hfuel
  rw [findFrom]
  cases hbi : bytesIndex (data.drop start) with
  | none =>
    rw [bytesIndex_eq_none_iff] at hbi
    refine iff_of_true rfl ?_
    rintro i hsi ⟨him, -⟩
    exact hbi (i - start) ((isMarkerAt_drop data start i hsi).mpr him)
  | some d =>
    rcases (bytesIndex_eq_some_iff _ d).mp hbi with ⟨hdm, hdmin⟩
    have hdm' : isMarkerAt data (d + start) := by
      have h0 := isMarkerAt_drop data start (d + start) (by omega)
      rw [Nat.add_sub_cancel] at h0
      exact h0.mp hdm
    have hnomark : ∀ j, start ≤ j → j < d + start → ¬ isMarkerAt data j := by
      intro j h1 h2 hj
      exact hdmin (j - start) (by omega) ((isMarkerAt_drop data start j h1).mpr hj)
    by_cases ht : ((d + start : Nat) : Int).tmod n = 0
    · simp only [if_pos ht]
      refine iff_of_false (fun h => by cases h) ?_
      intro h
      exact h (d + start) (by omega) ⟨hdm', Or.inr ht⟩
    · simp only [if_neg ht]
      have hstep : data.length - (d + start + 1) < fuel := by
        have hlen := bytesIndex_le_length _ _ hbi
        simp only [List.length_drop] at hlen
        omega
      rw [ih (d + start + 1) hstep]
      constructor
      · intro h i hsi
        rcases Nat.lt_or_ge i (d + start) with hlt | hge
        · rintro ⟨hj, -⟩
          exact hnomark i hsi hlt hj
        · rcases Nat.eq_or_lt_of_le hge with rfl | hgt
          · rintro ⟨-, hj⟩
            exact ht (hj.resolve_left hn)
          · exact h i (by omega)
      · intro h i hsi
        exact h i (by omega)

theorem findFrom_eq_none_iff (data : List Nat) (n : Int) (hn : n ≠ 0) :
    ∀ start, findFrom data n start = none ↔
      ∀ i, start ≤ i → ¬ alignedMarkerAt data n i := by
  intro start
  exact findFrom_eq_none_aux data n hn (data.length - start + 1) start (by omega)

/-- C2: the boundary finder returns exactly the first marker occurrence whose
index (relative to byte 4, since the caller passes `data[4:]`) is a multiple
of the row count — skipping earlier non-aligned occurrences; a zero row count
accepts the first occurrence unconditionally; and when no aligned occurrence
exists the structural parse fails with the boundary-not-found error. -/
theorem c2_aligned_boundary_finder (data : List Nat) (n : Int) :
    (∀ i, findAlignedBoundaryMarker data n = some i ↔
       alignedMarkerAt data n i ∧ ∀ j, j < i → ¬ alignedMarkerAt data n j) ∧
    (findAlignedBoundaryMarker data n = none ↔ ∀ i, ¬ alignedMarkerAt data n i) ∧
    (∀ file : List Nat, ¬ file.length < 4 →
       ¬ int32OfU32 (leU32 file 0) > MaxRowCount →
       findAlignedBoundaryMarker (file.drop 4) (int32OfU32 (leU32 file 0)) = none →
       parseDATStructure file = .error .boundaryNotFound) := by
  refine ⟨?_, ?_, ?_⟩
  · intro i
    by_cases hn : n = 0
    · subst hn
      unfold findAlignedBoundaryMarker
      rw [if_pos rfl, bytesIndex_eq_some_iff]
      simp [alignedMarkerAt]
    · unfold findAlignedBoundaryMarker
      rw [if_neg hn, findFrom_eq_some_iff data n hn 0 i]
      constructor
      · rintro ⟨-, hal, hmin⟩
        exact ⟨hal, fun j hj => hmin j (Nat.zero_le j) hj⟩
      · rintro ⟨hal, hmin⟩
        exact ⟨Nat.zero_le i, hal, fun j _ hj => hmin j hj⟩
  · by_cases hn : n = 0
    · subst hn
      unfold findAlignedBoundaryMarker
      rw [if_pos rfl, bytesIndex_eq_none_iff]
      simp [alignedMarkerAt]
    · unfold findAlignedBoundaryMarker
      rw [if_neg hn, findFrom_eq_none_iff data n hn 0]
      exact ⟨fun h i => h i (Nat.zero_le i), fun h i _ => h i⟩
  · intro file h1 h2 h3
    unfold parseDATStructure
    rw [if_neg h1, if_neg h2, h3]

/-- Direct introduction form of the boundary-finder characterization: the
first aligned occurrence is returned. -/
theorem findAligned_intro (data : List Nat) (n : Int) (i : Nat)
    (hal : alignedMarkerAt data n i)
    (hmin : ∀ j, j < i → ¬ alignedMarkerAt data n j) :
    findAlignedBoundaryMarker data n = some i := by
  by_cases hn : n = 0
  · subst hn
    unfold findAlignedBoundaryMarker
    rw [if_pos rfl, bytesIndex_eq_some_iff]
    exact ⟨hal.1, fun j hj hm => hmin j hj ⟨hm, Or.inl rfl⟩⟩
  · unfold findAlignedBoundaryMarker
    rw [if_neg hn, findFrom_eq_some_iff data n hn 0 i]
    exact ⟨Nat.zero_le i, hal, fun j _ hj => hmin j hj⟩

/-- C2 witness: on the concrete scenario the finder skips the non-aligned run
at index 5 and returns index 36 (offset 40 in the file, 40 − 4 = 36 = 3 × 12). -/
theorem c2_aligned_boundary_finder_witness :
    findAlignedBoundaryMarker c2tail 3 = some 36 :=
  ((c2_aligned_boundary_finder c2tail 3).1 36).mpr (by decide)

theorem intTdiv_coe (a c : Nat) : (a : Int).tdiv (c : Int) = ((a / c : Nat) : Int) := rfl

theorem intTmod_coe (a c : Nat) : (a : Int).tmod (c : Int) = ((a % c : Nat) : Int) := rfl

theorem flatten_drop_uniform (g : Nat) :
    ∀ (k : Nat) (blocks : List (List Nat)),
      (∀ i, i < k → (blocks.getD i []).length = g) →
      blocks.flatten.drop (k * g) = (blocks.drop k).flatten := by
  intro k
  induction k with
  | zero => intro blocks _; simp
  | succ k ihk =>
    intro blocks hlen
    cases blocks with
    | nil => simp
    | cons hd tl =>
      have h0 : hd.length = g := by simpa using hlen 0 (by omega)
      have hshift : ∀ i, i < k → (tl.getD i []).length = g := by
        intro i hi
        simpa using hlen (i + 1) (by omega)
      have harith : (k + 1) * g = hd.length + k * g := by rw [h0]; ring
      rw [List.flatten_cons, harith, List.drop_append, List.drop_succ_cons, ihk tl hshift]

theorem bundleWF_size_le (b : BundleModel) (h : bundleWF b) :
    b.size ≤ b.blocks.length * b.granularity := by
  obtain ⟨hg, hcount, -⟩ := h
  have hdm := Nat.div_add_mod b.size b.granularity
  by_cases hr : b.size % b.granularity > 0
  · rw [if_pos hr] at hcount
    have hlt : b.size < (b.size / b.granularity + 1) * b.granularity :=
      (Nat.div_lt_iff_lt_mul hg).mp (Nat.lt_succ_self _)
    rw [hcount]
    omega
  · rw [if_neg hr, Nat.add_zero] at hcount
    have hle : b.size / b.granularity * b.granularity ≤ b.size := Nat.div_mul_le_self _ _
    have heq : b.size / b.granularity * b.granularity = b.size := by
      have hcm : b.size / b.granularity * b.granularity =
          b.granularity * (b.size / b.granularity) := Nat.mul_comm _ _
      omega
    rw [hcount]
    omega

theorem bundleWF_last_lt (b : BundleModel) (h : bundleWF b)
    (hpos : 0 < b.blocks.length) :
    (b.blocks.length - 1) * b.granularity < b.size := by
  obtain ⟨hg, hcount, -⟩ := h
  have hdm := Nat.div_add_mod b.size b.granularity
  by_cases hr : b.size % b.granularity > 0
  · rw [if_pos hr] at hcount
    have h1 : b.blocks.length - 1 = b.size / b.granularity := by omega
    rw [h1]
    have hcm : b.size / b.granularity * b.granularity =
        b.granularity * (b.size / b.granularity) := Nat.mul_comm _ _
    omega
  · rw [if_neg hr] at hcount
    have hq1 : b.blocks.length - 1 + 1 = b.blocks.length := by omega
    have hstep : (b.blocks.length - 1) * b.granularity + b.granularity =
        (b.blocks.length - 1 + 1) * b.granularity := by ring
    rw [hq1] at hstep
    have hcm : b.blocks.length * b.granularity =
        b.granularity * (b.size / b.granularity) := by rw [hcount]; ring
    omega

theorem flatten_length_of_blocks (g : Nat) (hg : 0 < g) :
    ∀ (blocks : List (List Nat)) (size : Nat),
      blocks.length = size / g + (if size % g > 0 then 1 else 0) →
      (∀ i, i < blocks.length → (blocks.getD i []).length = min g (size - i * g)) →
      blocks.flatten.length = size := by
  intro blocks
  induction blocks with
  | nil =>
    intro size hc _
    simp only [List.length_nil] at hc
    by_cases hr : size % g > 0
    · rw [if_pos hr] at hc
      exact absurd hc (by simp)
    · rw [if_neg hr, Nat.add_zero] at hc
      have hlt : size < g := by
        rcases Nat.lt_or_ge size g with h | h
        · exact h
        · have h1 : g / g ≤ size / g := Nat.div_le_div_right h
          rw [Nat.div_self hg, ← hc] at h1
          omega
      have hmod : size % g = size := Nat.mod_eq_of_lt hlt
      rw [hmod] at hr
      have hz : size = 0 := by omega
      simp [hz]
  | cons hd tl ih =>
    intro size hc hlen
    have h0 : hd.length = min g (size - 0) := by simpa using hlen 0 (by simp)
    rw [Nat.sub_zero] at h0
    by_cases hge : g ≤ size
    · obtain ⟨size2, rfl⟩ : ∃ s2, size = s2 + g := ⟨size - g, by omega⟩
      have hd1 : (size2 + g) / g = size2 / g + 1 := Nat.add_div_right _ hg
      have hm1 : (size2 + g) % g = size2 % g := Nat.add_mod_right _ _
      rw [hd1, hm1, List.length_cons] at hc
      have hc2 : tl.length = size2 / g + (if size2 % g > 0 then 1 else 0) := by omega
      have hlen2 : ∀ i, i < tl.length →
          (tl.getD i []).length = min g (size2 - i * g) := by
        intro i hi
        have hx := hlen (i + 1) (by simp; omega)
        have harith : size2 + g - (i + 1) * g = size2 - i * g := by
          have hm : (i + 1) * g = i * g + g := by ring
          omega
        rw [harith] at hx
        simpa using hx
      have ihtl := ih size2 hc2 hlen2
      have hdg : hd.length = g := by
        rw [h0]
        exact Nat.min_eq_left (by omega)
      rw [List.flatten_cons, List.length_append, ihtl, hdg]
      omega
    · have hdiv : size / g = 0 := Nat.div_eq_of_lt (by omega)
      have hm : size % g = size := Nat.mod_eq_of_lt (by omega)
      rw [hdiv, hm, List.length_cons] at hc
      by_cases hsz : size > 0
      · rw [if_pos hsz] at hc
        have htl : tl = [] := List.eq_nil_of_length_eq_zero (by omega)
        subst htl
        simp only [List.flatten_cons, List.flatten_nil, List.append_nil]
        rw [h0]
        exact Nat.min_eq_right (by omega)
      · rw [if_neg hsz] at hc
        omega

theorem bundleStream_length (b : BundleModel) (h : bundleWF b) :
    (bundleStream b).length = b.size := by
  obtain ⟨hg, hcount, hlen⟩ := h
  exact flatten_length_of_blocks b.granularity hg b.blocks b.size hcount hlen

theorem stream_drop_block (b : BundleModel) (h : bundleWF b) (k : Nat)
    (hk : k < b.blocks.length) :
    (bundleStream b).drop (k * b.granularity) =
      b.blocks.getD k [] ++ (b.blocks.drop (k + 1)).flatten := by
  have huni : ∀ i, i < k → (b.blocks.getD i []).length = b.granularity := by
    intro i hi
    have hx := h.2.2 i (by omega)
    rw [hx]
    refine Nat.min_eq_left ?_
    have hlast := bundleWF_last_lt b h (by omega)
    have hle : (i + 1) * b.granularity ≤ (b.blocks.length - 1) * b.granularity :=
      Nat.mul_le_mul_right _ (by omega)
    have hsm : (i + 1) * b.granularity = i * b.granularity + b.granularity := by ring
    omega
  rw [bundleStream, flatten_drop_uniform b.granularity k b.blocks huni,
    List.drop_eq_getElem_cons hk, List.flatten_cons, List.getD_eq_getElem _ _ hk]

theorem intToNat_coe (n : Nat) : ((n : Int)).toNat = n := rfl

theorem take_drop_split (l : List Nat) (off a c : Nat) :
    (l.drop off).take (a + c) = (l.drop off).take a ++ (l.drop (off + a)).take c := by
  rw [List.take_add, List.drop_drop]

theorem bundleReadLoop_ok_aux (b : BundleModel) (hwf : bundleWF b) :
    ∀ (fuel remaining off : Nat), remaining < fuel → off + remaining ≤ b.size →
      bundleReadLoop b remaining (off : Int) =
        .ok (((bundleStream b).drop off).take remaining) := by
  intro fuel
  induction fuel with
  | zero => intro remaining off h _; omega
  | succ fuel ih =>
  intro remaining off hfuel hbound
  by_cases h0 : remaining = 0
  · subst h0
    rw [bundleReadLoop]
    simp
  · have hg : 0 < b.granularity := hwf.1
    have hsize_le := bundleWF_size_le b hwf
    have hoff_lt : off < b.size := by omega
    have hlen_pos : 0 < b.blocks.length := by
      by_contra hl
      have hz : b.blocks.length = 0 := by omega
      rw [hz, Nat.zero_mul] at hsize_le
      omega
    have hk_lt : off / b.granularity < b.blocks.length :=
      (Nat.div_lt_iff_lt_mul hg).mpr (by omega)
    rw [bundleReadLoop, dif_neg h0, dif_neg (by omega : ¬ b.granularity = 0)]
    simp only [intTdiv_coe, intTmod_coe, intToNat_coe]
    set k := off / b.granularity with hk
    set r := off % b.granularity with hr
    have hdm : b.granularity * k + r = off := Nat.div_add_mod off b.granularity
    have hmulc : b.granularity * k = k * b.granularity := Nat.mul_comm _ _
    have hrlt : r < b.granularity := Nat.mod_lt _ hg
    have hlast_lt := bundleWF_last_lt b hwf hlen_pos
    have hknn : ¬ (((k : Nat) : Int) < 0 ∨ (b.blocks.length : Int) ≤ ((k : Nat) : Int)) := by
      push_neg
      exact ⟨Int.natCast_nonneg k, by exact_mod_cast hk_lt⟩
    rw [dif_neg hknn]
    obtain ⟨m, hm_cast, hm_bl, hm_le, hrm, hcop_le⟩ : ∃ m : Nat,
        (if ((k : Nat) : Int) = (b.blocks.length : Int) - 1
          then (b.size : Int) - (k : Int) * (b.granularity : Int)
          else ((b.granularity : Nat) : Int)) = ((m : Nat) : Int) ∧
        (b.blocks.getD k []).length = m ∧ m ≤ b.granularity ∧ r < m ∧
        min remaining (b.granularity - r) ≤ m - r := by
      have hblk := hwf.2.2 k hk_lt
      by_cases hlast : k = b.blocks.length - 1
      · refine ⟨b.size - k * b.granularity, ?_, ?_, ?_, ?_, ?_⟩
        · rw [if_pos (by omega)]
          have hkg_le : k * b.granularity ≤ b.size := by omega
          rw [Nat.cast_sub hkg_le]
          push_cast
          ring
        · rw [hblk]
          refine Nat.min_eq_right ?_
          have hlen_eq : b.blocks.length = k + 1 := by omega
          rw [hlen_eq] at hsize_le
          have hsucc : (k + 1) * b.granularity = k * b.granularity + b.granularity := by
            ring
          omega
        · have hlen_eq : b.blocks.length = k + 1 := by omega
          rw [hlen_eq] at hsize_le
          have hsucc : (k + 1) * b.granularity = k * b.granularity + b.granularity := by
            ring
          omega
        · omega
        · omega
      · refine ⟨b.granularity, ?_, ?_, le_refl _, by omega, by omega⟩
        · rw [if_neg (by omega)]
        · rw [hblk]
          refine Nat.min_eq_left ?_
          have hle2 : (k + 1) * b.granularity ≤ (b.blocks.length - 1) * b.granularity :=
            Nat.mul_le_mul_right _ (by omega)
          have hsucc : (k + 1) * b.granularity = k * b.granularity + b.granularity := by
            ring
          omega
    rw [hm_cast]
    rw [dif_neg (by omega : ¬ (((m : Nat) : Int) < 0 ∨ (b.granularity : Int) < (m : Int)))]
    simp only [intToNat_coe]
    rw [dif_neg (not_ne_iff.mpr hm_bl)]
    rw [dif_neg (by omega : ¬ (((r : Nat) : Int) < 0 ∨ (b.granularity : Int) < (r : Int)))]
    have hrecast : ((off : Int) + ((min remaining (b.granularity - r) : Nat) : Int)) =
        ((off + min remaining (b.granularity - r) : Nat) : Int) := by push_cast; ring
    have hcop_pos : 1 ≤ min remaining (b.granularity - r) := by omega
    have hcop_rem : min remaining (b.granularity - r) ≤ remaining := Nat.min_le_left _ _
    rw [hrecast, ih (remaining - min remaining (b.granularity - r))
      (off + min remaining (b.granularity - r)) (by omega) (by omega)]
    have hchunk :
        (((b.blocks.getD k [] ++ List.replicate (b.granularity - m) 0).drop r).take
          (min remaining (b.granularity - r))) =
        ((bundleStream b).drop off).take (min remaining (b.granularity - r)) := by
      have hsd : (bundleStream b).drop (k * b.granularity) =
          b.blocks.getD k [] ++ (b.blocks.drop (k + 1)).flatten :=
        stream_drop_block b hwf k hk_lt
      have hoff_eq : off = k * b.granularity + r := by omega
      have hdd : (bundleStream b).drop off =
          ((bundleStream b).drop (k * b.granularity)).drop r := by
        rw [List.drop_drop, ← hoff_eq]
      rw [hdd, hsd]
      rw [List.drop_append_of_le_length (by omega), List.drop_append_of_le_length (by omega)]
      rw [List.take_append_of_le_length (by simp only [List.length_drop]; omega),
        List.take_append_of_le_length (by simp only [List.length_drop]; omega)]
    rw [hchunk]
    have hsplit : remaining =
        min remaining (b.granularity - r) + (remaining - min remaining (b.granularity - r)) := by
      omega
    conv_rhs => rw [hsplit]
    rw [take_drop_split]

/-- C6: for every well-formed bundle, an in-bounds read (`off + L ≤ size`)
returns exactly `L` bytes — the corresponding segment of the logical
uncompressed stream, so repeated calls give identical bytes (the model is a
pure function of the bundle) — and any read with `off + L > size` is
rejected with the out-of-bounds error. -/
theorem c6_bundle_readAt_exact (b : BundleModel) (hwf : bundleWF b) :
    (∀ (off dstLen : Nat), off + dstLen ≤ b.size →
       bundleReadAt b dstLen (off : Int) =
         .ok (((bundleStream b).drop off).take dstLen) ∧
       (((bundleStream b).drop off).take dstLen).length = dstLen) ∧
    (∀ (off : Int) (dstLen : Nat), off + (dstLen : Int) > (b.size : Int) →
       bundleReadAt b dstLen off = .err) := by
  constructor
  · intro off dstLen hb
    constructor
    · unfold bundleReadAt
      rw [if_neg (by push_neg; exact_mod_cast hb)]
      exact bundleReadLoop_ok_aux b hwf (dstLen + 1) dstLen off (by omega) hb
    · rw [List.length_take, List.length_drop, bundleStream_length b hwf]
      exact Nat.min_eq_left (by omega)
  · intro off dstLen hgt
    unfold bundleReadAt
    rw [if_pos hgt]

/-- C6 witness: the three scenario-1 reads on the concrete bundle. -/
theorem c6_bundle_readAt_exact_witness :
    bundleReadAt c6bundle 3 ((0 : Nat) : Int) = .ok [65, 66, 67] ∧
    bundleReadAt c6bundle 2 ((1 : Nat) : Int) = .ok [66, 67] ∧
    bundleReadAt c6bundle 1 3 = .err := by
  have h := c6_bundle_readAt_exact c6bundle (by decide)
  exact ⟨(h.1 0 3 (by decide)).1, (h.1 1 2 (by decide)).1, h.2 3 1 (by decide)⟩

/-- C10: `ReadAt` validates only the upper bound — any request with
`off + L > size` is rejected as an error — while the negative offset −1 with
`L = 1` passes that check and then panics: the in-block offset
`(-1) % granularity = -1` is a negative slice index. -/
theorem c10_readAt_negative_offset_panics :
    (∀ (b : BundleModel) (off : Int) (dstLen : Nat),
       off + (dstLen : Int) > (b.size : Int) → bundleReadAt b dstLen off = .err) ∧
    ((-1 : Int) + ((1 : Nat) : Int) ≤ ((c10bundle.size : Nat) : Int)) ∧
    bundleReadAt c10bundle 1 (-1) = .panic := by
  refine ⟨?_, by decide, ?_⟩
  · intro b off dstLen h
    unfold bundleReadAt
    rw [if_pos h]
  · unfold bundleReadAt
    rw [if_neg (by decide)]
    rw [bundleReadLoop]
    simp [c10bundle, show ((-1 : Int)).tdiv 64 = 0 from by decide,
      show ((-1 : Int)).tmod 64 = -1 from by decide]

/-- C10 witness: an over-the-end read on the same bundle is rejected with the
error (the upper-bound validation of the first conjunct). -/
theorem c10_readAt_negative_offset_panics_witness :
    bundleReadAt c10bundle 1 4 = .err :=
  c10_readAt_negative_offset_panics.1 c10bundle 4 1 (by decide)

/-- C3 counterexample: the string slot's offset (64) is out of range — the
scalar reader returns the specific hard error — yet the whole-file parse
succeeds (the row walker swallows the error and breaks), so a hard decode
error does NOT abort the file as the claim states. -/
theorem c3_hard_decode_error_does_not_abort :
    readScalarField ⟨.w64, defaultParserOptions⟩ [64, 0, 0, 0, 0, 0, 0, 0] c3column
      (List.replicate 8 187) = .error .offsetOutOfRange ∧
    ParseDATFileWithFilename defaultParserOptions c3data [] c3schema = .ok c3table := by
  constructor
  · rfl
  · have hfind : findAlignedBoundaryMarker (c3data.drop 4) 1 = some 8 :=
      findAligned_intro _ _ 8 (by decide) (by decide)
    have hrc : int32OfU32 (leU32 c3data 0) = 1 := by decide
    have hps : parseDATStructure c3data =
        .ok ⟨1, 0, [64, 0, 0, 0, 0, 0, 0, 0], List.replicate 8 187⟩ := by
      unfold parseDATStructure
      rw [if_neg (by decide)]
      simp only [hrc]
      rw [hfind]
      norm_num
      decide
    unfold ParseDATFileWithFilename
    rw [if_neg (by decide), hps]
    simp only []
    rw [hfind]
    norm_num
    decide

/-- C3 (amended): the row walker never propagates an error — `parseRow`
always returns `.ok` — and when a field value fails to decode (for a slot
that did fit in the row) the walk stops at that column, returning the fields
accumulated so far, exactly as for insufficient remaining bytes. -/
theorem c3_amended_field_errors_fail_soft :
    (∀ (p : DATParser) (index : Nat) (rowData dynamicData : List Nat)
       (schema : TableSchema),
       ∃ row, parseRow p index rowData dynamicData schema = .ok row) ∧
    (∀ (p : DATParser) (rowData dynamicData : List Nat) (column : TableColumn)
       (rest : List TableColumn) (i currentOffset : Nat)
       (fields : List (List Nat × Value)) (fieldsParsed : Nat) (e : DatErr),
       currentOffset < rowData.length →
       currentOffset + calculateFieldSize p.width column ≤ rowData.length →
       parseFieldValue p
         ((rowData.take (currentOffset + calculateFieldSize p.width column)).drop
           currentOffset) column dynamicData = .error e →
       parseRowLoop p rowData dynamicData (column :: rest) i currentOffset fields
         fieldsParsed = (fields, fieldsParsed)) := by
  constructor
  · intro p index rowData dynamicData schema
    exact ⟨_, rfl⟩
  · intro p rowData dynamicData column rest i co fields fp e h1 h2 herr
    simp only [parseRowLoop, extractFieldData]
    rw [if_neg (show ¬ co ≥ rowData.length by omega)]
    have hmin : (co + calculateFieldSize p.width column) ⊓ rowData.length =
        co + calculateFieldSize p.width column := by
      rw [inf_eq_min]
      omega
    simp only [hmin]
    rw [if_neg (show ¬ (decide (co + calculateFieldSize p.width column > rowData.length) = true) by
      simp only [decide_eq_true_eq]
      omega)]
    rw [herr]

/-- C3 amended witness: on the concrete out-of-range string slot the walk of
a one-column list stops with nothing parsed (and no error). -/
theorem c3_amended_field_errors_fail_soft_witness :
    parseRowLoop ⟨.w64, defaultParserOptions⟩ [64, 0, 0, 0, 0, 0, 0, 0]
      (List.replicate 8 187) [c3column] 0 0 [] 0 = ([], 0) :=
  c3_amended_field_errors_fail_soft.2 ⟨.w64, defaultParserOptions⟩
    [64, 0, 0, 0, 0, 0, 0, 0] (List.replicate 8 187) c3column [] 0 0 [] 0
    .offsetOutOfRange (by decide) (by decide) (by decide)

/-- C4 counterexample: a sentinel array count is rejected by
`validateArraySize` (sentinel > default `MaxArrayCount` 65536) before
`ReadArray` ever runs, so the field decodes to an error — not to the empty
array the claim requires. -/
theorem c4_sentinel_count_errors :
    readArrayField ⟨.w64, defaultParserOptions⟩ c4slot c4column
      (List.replicate 8 187) true = .error .arrayCountExceedsLimit ∧
    readArrayField ⟨.w64, defaultParserOptions⟩ c4slot c4column
      (List.replicate 8 187) true ≠ .ok (createEmptyArray .u32) := by
  decide

/-- C4 (amended): whenever the array slot's u32 count reads as the sentinel
`0xFEFEFEFE` and the configured `MaxArrayCount` is below it (as the default
65536 is), `readArrayField` fails with the array-count-exceeds-limit error;
the sentinel count is never turned into an empty array. -/
theorem c4_amended_sentinel_count_exceeds_limit (p : DATParser)
    (column : TableColumn) (slot dynamicData : List Nat) (statePresent : Bool)
    (hlen : ¬ slot.length < FieldType.array.Size p.width)
    (hcount : leU32 slot 0 = NullRowSentinel)
    (hmax : p.options.maxArrayCount < NullRowSentinel) :
    readArrayField p slot column dynamicData statePresent =
      .error .arrayCountExceedsLimit := by
  unfold readArrayField validateArrayFieldInput
  rw [if_neg hlen]
  simp only [hcount]
  unfold validateArraySize
  rw [if_pos (by omega)]

/-- C4 amended witness: the amended statement at a concrete 32-bit-width
parser and slot. -/
theorem c4_amended_sentinel_count_exceeds_limit_witness :
    readArrayField ⟨.w32, defaultParserOptions⟩
      ([254, 254, 254, 254] ++ List.replicate 12 1)
      ⟨some (strBytes "B"), .i32, true, false⟩ [] false =
      .error .arrayCountExceedsLimit :=
  c4_amended_sentinel_count_exceeds_limit ⟨.w32, defaultParserOptions⟩
    ⟨some (strBytes "B"), .i32, true, false⟩
    ([254, 254, 254, 254] ++ List.replicate 12 1) [] false
    (by decide) (by decide) (by decide)

/-- C9 counterexample: an array field whose dynamic offset is 3 — inside
[1, 8) — but whose count is 0 decodes to the EMPTY array, not to an error:
the count-zero short circuit runs before the small-offset check, so the
claim's "only 0 and the sentinel yield an empty array" fails. -/
theorem c9_small_offset_zero_count_empty :
    ReadArray ⟨.w64, defaultParserOptions⟩ [] 3 0 .bool true =
      .ok (createEmptyArray .bool) ∧
    ReadArray ⟨.w64, defaultParserOptions⟩ [] 3 0 .bool true ≠
      .error .offsetTooSmall := by
  decide

/-- C9 (amended): for every dynamic-section offset in [1, 8), `ReadString`
returns the empty string without error, while `ReadArray` returns the
offset-too-small error for every NONZERO count (a zero count yields the
empty array regardless of the offset, and offsets 0 and the sentinels yield
empties on both paths). -/
theorem c9_amended_small_offset_asymmetry (p : DATParser)
    (dynamicData : List Nat) (offset : Nat) (h1 : 1 ≤ offset) (h8 : offset < 8) :
    ReadString p dynamicData offset = .ok [] ∧
    ∀ (count : Nat) (elementType : FieldType) (statePresent : Bool), count ≠ 0 →
      ReadArray p dynamicData offset count elementType statePresent =
        .error .offsetTooSmall := by
  have hs32 : offset ≠ NullRowSentinel := by
    unfold NullRowSentinel; omega
  have hs64 : offset ≠ LongIDNullSentinel := by
    unfold LongIDNullSentinel; omega
  have hsent : ¬ (offset = NullRowSentinel ∨ (p.width = .w64 ∧ offset = LongIDNullSentinel)) := by
    rintro (h | ⟨-, h⟩)
    · exact hs32 h
    · exact hs64 h
  have hlt : offset < MinOffsetForArraysAndStrings := by
    unfold MinOffsetForArraysAndStrings; omega
  constructor
  · unfold ReadString
    rw [if_neg (by omega), if_neg hsent, if_pos hlt]
  · intro count elementType statePresent hc
    unfold ReadArray
    rw [if_neg (by omega), if_neg hsent, if_pos hlt]

/-- C9 amended witness: offset 5 gives the empty string and, with count 7,
the offset-too-small array error. -/
theorem c9_amended_small_offset_asymmetry_witness :
    ReadString ⟨.w64, defaultParserOptions⟩ [1, 2, 3] 5 = .ok [] ∧
    ReadArray ⟨.w64, defaultParserOptions⟩ [1, 2, 3] 5 7 .u32 true =
      .error .offsetTooSmall :=
  ⟨(c9_amended_small_offset_asymmetry ⟨.w64, defaultParserOptions⟩ [1, 2, 3] 5
      (by decide) (by decide)).1,
   (c9_amended_small_offset_asymmetry ⟨.w64, defaultParserOptions⟩ [1, 2, 3] 5
      (by decide) (by decide)).2 7 .u32 true (by decide)⟩

theorem bytesLt_irrefl (a : List Nat) : bytesLt a a = false := by
  induction a with
  | nil => rfl
  | cons x xs ih => simp [bytesLt, ih]

theorem bytesLt_trans :
    ∀ {a c e : List Nat}, bytesLt a c = true → bytesLt c e = true → bytesLt a e = true := by
  intro a
  induction a with
  | nil =>
    intro c e hac hce
    cases c with
    | nil => exact absurd hac (by simp [bytesLt])
    | cons y ys =>
      cases e with
      | nil => exact absurd hce (by simp [bytesLt])
      | cons z zs => simp [bytesLt]
  | cons x xs ih =>
    intro c e hac hce
    cases c with
    | nil => exact absurd hac (by simp [bytesLt])
    | cons y ys =>
      cases e with
      | nil => exact absurd hce (by simp [bytesLt])
      | cons z zs =>
        simp only [bytesLt] at hac hce ⊢
        by_cases hxy : x < y
        · by_cases hyz : y < z
          · rw [if_pos (by omega)]
          · rw [if_neg hyz] at hce
            by_cases hzy : z < y
            · rw [if_pos hzy] at hce
              simp at hce
            · rw [if_neg hzy] at hce
              have : y = z := by omega
              subst this
              rw [if_pos hxy]
        · rw [if_neg hxy] at hac
          by_cases hyx : y < x
          · rw [if_pos hyx] at hac
            simp at hac
          · rw [if_neg hyx] at hac
            have hxe : x = y := by omega
            subst hxe
            by_cases hxz : x < z
            · rw [if_pos hxz]
            · rw [if_neg hxz] at hce ⊢
              by_cases hzx : z < x
              · simp [hzx] at hce
              · rw [if_neg hzx] at hce ⊢
                exact ih hac hce

theorem bytesLt_eq_of_not :
    ∀ {a c : List Nat}, bytesLt a c = false → bytesLt c a = false → a = c := by
  intro a
  induction a with
  | nil =>
    intro c hac _
    cases c with
    | nil => rfl
    | cons y ys => simp [bytesLt] at hac
  | cons x xs ih =>
    intro c hac hca
    cases c with
    | nil => simp [bytesLt] at hca
    | cons y ys =>
      simp only [bytesLt] at hac hca
      by_cases hxy : x < y
      · simp [hxy] at hac
      · rw [if_neg hxy] at hac
        by_cases hyx : y < x
        · simp [hyx] at hca
        · rw [if_neg hyx] at hca
          rw [if_neg hyx] at hac
          rw [if_neg hxy] at hca
          have hxe : x = y := by omega
          subst hxe
          rw [ih hac hca]

theorem fileLe_trans (a c e : BundleFileInfo)
    (h1 : (! bytesLt c.path a.path) = true) (h2 : (! bytesLt e.path c.path) = true) :
    (! bytesLt e.path a.path) = true := by
  simp only [Bool.not_eq_true'] at h1 h2 ⊢
  by_cases hxy : bytesLt a.path c.path = true
  · by_contra hea
    have : bytesLt e.path c.path = true :=
      bytesLt_trans (by simpa using hea) hxy
    simp [h2] at this
  · have := bytesLt_eq_of_not (by simpa using hxy) h1
    rw [this]
    exact h2

theorem fileLe_total (a c : BundleFileInfo) :
    ((! bytesLt c.path a.path) || (! bytesLt a.path c.path)) = true := by
  by_cases h1 : bytesLt c.path a.path = true
  · by_cases h2 : bytesLt a.path c.path = true
    · have := bytesLt_trans h1 h2
      rw [bytesLt_irrefl] at this
      cases this
    · simp [h2]
  · simp [h1]

theorem setFilePath_length (files : List BundleFileInfo) (i : Nat) (p : List Nat) :
    (setFilePath files i p).length = files.length := by
  unfold setFilePath
  cases h : files.get? i with
  | none => rfl
  | some f => exact List.length_set files i _

theorem assignFilePaths_length (modern legacy : List Nat → Nat)
    (filemap : List (Nat × Nat)) :
    ∀ (paths : List (List Nat)) (files : List BundleFileInfo),
      (assignFilePaths modern legacy filemap files paths).length = files.length := by
  intro paths
  induction paths with
  | nil => intro files; rfl
  | cons path rest ih =>
    intro files
    unfold assignFilePaths
    cases filemapLookup filemap (modern path) with
    | some fe => rw [ih]; exact setFilePath_length _ _ _
    | none =>
      cases filemapLookup filemap (legacy path) with
      | some fe => rw [ih]; exact setFilePath_length _ _ _
      | none => exact ih files

/-- C7 counterexample: an index built from a single file entry whose hash no
path resolves (empty filemap, no pathspec paths) exports that entry — with
its empty path — in `ListFiles`, contradicting the claimed exclusion. -/
theorem c7_unresolved_path_exported :
    ListFiles (buildBundleIndex (fun _ => 0) (fun _ => 0) []
      [{ path := [], bundleId := 0, offset := 0, size := 0 }] [] []) =
      [([] : List Nat)] := by
  unfold buildBundleIndex ListFiles sortFilesByPath assignFilePaths
  have hp := List.mergeSort_perm
    [({ path := [], bundleId := 0, offset := 0, size := 0 } : BundleFileInfo)]
    (fun x y => ! bytesLt y.path x.path)
  rw [List.perm_singleton.mp hp]
  rfl

/-- C7 (amended): after index construction the exported file list is sorted
by path ascending (no later path is byte-wise less than an earlier one), but
it contains ALL entries — one path per file-table entry — including entries
whose hash was never resolved, which appear with their empty path. -/
theorem c7_amended_sorted_but_unfiltered (modern legacy : List Nat → Nat)
    (filemap : List (Nat × Nat)) (files0 : List BundleFileInfo)
    (paths : List (List Nat)) (bundles : List (List Nat)) :
    List.Pairwise (fun a c : List Nat => bytesLt c a = false)
      (ListFiles (buildBundleIndex modern legacy filemap files0 paths bundles)) ∧
    (ListFiles (buildBundleIndex modern legacy filemap files0 paths bundles)).length =
      files0.length := by
  constructor
  · unfold buildBundleIndex ListFiles sortFilesByPath
    have hs := @List.sorted_mergeSort BundleFileInfo
      (fun x y : BundleFileInfo => ! bytesLt y.path x.path)
      (fun a c e => fileLe_trans a c e) (fun a c => fileLe_total a c)
      (assignFilePaths modern legacy filemap files0 paths)
    refine List.Pairwise.map _ ?_ hs
    intro a c h
    simpa using h
  · unfold buildBundleIndex ListFiles sortFilesByPath
    rw [List.length_map,
      (List.mergeSort_perm (assignFilePaths modern legacy filemap files0 paths)
        (fun x y => ! bytesLt y.path x.path)).length_eq,
      assignFilePaths_length]

theorem resolvePathsLoop_eq_map (languages : List (List Nat)) (filename : List Nat) :
    resolvePathsLoop languages filename = languages.map (langCandidate filename) := by
  unfold resolvePathsLoop
  suffices h : ∀ acc, languages.foldl
      (fun paths lang => paths ++ [langCandidate filename lang]) acc =
      acc ++ languages.map (langCandidate filename) by
    simpa using h []
  induction languages with
  | nil => intro acc; simp
  | cons l ls ih =>
    intro acc
    simp only [List.foldl_cons, List.map_cons, ih]
    simp

/-- C8 counterexample: on `"DATA/x.datc64"` — which does start with `data/`
case-insensitively — the code strips nothing and returns the path unchanged,
while the claim's case-insensitive rule produces `data/x.datc64`. -/
theorem c8_not_case_insensitive :
    resolvePaths [strBytes "English"] (strBytes "DATA/x.datc64") =
      [strBytes "DATA/x.datc64"] ∧
    resolvePathsSpecCI [strBytes "English"] (strBytes "DATA/x.datc64") =
      [strBytes "data/x.datc64"] ∧
    resolvePaths [strBytes "English"] (strBytes "DATA/x.datc64") ≠
      resolvePathsSpecCI [strBytes "English"] (strBytes "DATA/x.datc64") := by
  decide

/-- C8 (amended): the resolver strips the `data/` prefix exactly when the
path starts with the literal `"Data/"` or `"data/"` (not case-insensitively);
otherwise the path is returned unchanged as the sole candidate; and one
candidate per language is emitted in order — `data/<filename>` for English,
`data/<lowercase-language>/<filename>` otherwise. -/
theorem c8_amended_exact_data_strip (languages : List (List Nat))
    (inputPath : List Nat) :
    resolvePaths languages inputPath = resolvePathsAmendedSpec languages inputPath := by
  unfold resolvePaths resolvePathsAmendedSpec
  by_cases h1 : hasPrefixBytes inputPath (strBytes "Data/") = true
  · rw [if_pos h1, if_pos (Or.inl h1), resolvePathsLoop_eq_map]
  · rw [if_neg h1]
    by_cases h2 : hasPrefixBytes inputPath (strBytes "data/") = true
    · rw [if_pos h2, if_pos (Or.inr h2), resolvePathsLoop_eq_map]
    · rw [if_neg h2, if_neg (by simp [h1, h2])]

end ExileDB
